import Mathlib

/-!
Verification of the Maestro4D hierarchical context-tree processing pipeline.

The definitions below are shallow embeddings of the Python functions in
`app/services/context_tree_processor.py` and `app/routers/context_tree.py`.
Strings are manipulated as `List Char` with structural recursion so that all
definitions evaluate inside the kernel.
-/

namespace Maestro

/-- Characters removed by the Python regex `[-.\s]` used in
`normalize_sheet_ref`: the separators dash and dot plus ASCII whitespace. -/
def isSepChar (c : Char) : Bool :=
  c = '-' || c = '.' || c = ' ' || c = '\t' || c = '\n' || c = '\r' ||
  c = '\x0B' || c = '\x0C'

/-- `re.sub(r'[-.\s]', '', part.upper())`: upper-case then drop separators. -/
def cleanPart (s : List Char) : List Char :=
  (s.map Char.toUpper).filter (fun c => !(isSepChar c))

/-- ASCII upper-case letter test, the `[A-Z]` character class. -/
def isUpperAZ (c : Char) : Bool := 'A' ≤ c && c ≤ 'Z'

/-- After at least one leading letter has been consumed: scan further letters
and succeed on the first decimal digit (`[A-Z]*\d` continuation). -/
def lettersDigitAux : List Char → Bool
  | [] => false
  | c :: rest => if c.isDigit then true else if isUpperAZ c then lettersDigitAux rest else false

/-- The Python test `re.match(r'^[A-Z]+\d', clean)`: the string starts with one
or more upper-case letters immediately followed by a digit. -/
def lettersThenDigit : List Char → Bool
  | [] => false
  | c :: rest => isUpperAZ c && lettersDigitAux rest

/-- Python `str.split('/')`: split on every slash, keeping empty pieces. -/
def splitOnSlash : List Char → List (List Char)
  | [] => [[]]
  | c :: rest =>
    let r := splitOnSlash rest
    if c = '/' then [] :: r
    else
      match r with
      | [] => [[c]]
      | h :: t => (c :: h) :: t

/-- Embedding of `normalize_sheet_ref` (context_tree_processor.py, lines
107-129), working over the character list of the reference string. -/
def normList (ref : List Char) : List Char :=
  if ref = [] then []
  else if ref.contains '/' then
    match (splitOnSlash ref).find? (fun p => lettersThenDigit (cleanPart p)) with
    | some p => cleanPart p
    | none => cleanPart ref
  else cleanPart ref

/-- `normalize_sheet_ref` on `String`, the pure total normalizer. -/
def normalize_sheet_ref (ref : String) : String := String.mk (normList ref.data)

/-! ## Data model

Embedding of the `PageContext` row fields used by the pipeline (declared by
the schema migration in `database.py` and mutated by
`context_tree_processor.py`).  JSON sub-objects are modelled as structures;
a JSON key that may be absent or null is an `Option`. -/

/-- One outbound reference inside a Pass 1 pointer:
`{ref, type, source_element_id?, source_text?}`. -/
structure OutRef where
  ref : String
  rtype : String
  source_element_id : Option String
  source_text : Option String
  deriving DecidableEq, Repr

/-- One per-annotation entry of `pass1_output.pointers`. -/
structure PointerOut where
  pointer_id : String
  summary : String
  outbound_refs : List OutRef
  deriving DecidableEq, Repr

/-- The structured `pass1_output` JSON blob. -/
structure Pass1Out where
  discipline : String
  summary : String
  sheet_number : Option String
  pointers : List PointerOut
  deriving DecidableEq, Repr

/-- One element of `pass2_output.outbound_refs_context`. -/
structure RefCtx where
  ref : String
  context : String
  deriving DecidableEq, Repr

/-- The structured `pass2_output` JSON blob. -/
structure Pass2Out where
  outbound_refs_context : List RefCtx
  deriving DecidableEq, Repr

/-- One element of a page's `inbound_references` list, as written by
`compute_inbound_references`; `context` is absent (`none`) until
`propagate_inbound_context` fills it in. -/
structure InboundEntry where
  source_sheet : Option String
  source_page_id : String
  from_pointer : String
  rtype : String
  original_ref : String
  source_element_id : Option String
  source_text : Option String
  context : Option String
  deriving DecidableEq, Repr

/-- The closed `processing_status` enum of a page. -/
inductive PStatus where
  | unprocessed
  | pass1_processing
  | pass1_complete
  | pass2_processing
  | pass2_complete
  | error
  deriving DecidableEq, Repr

/-- A `PageContext` row restricted to the fields the pipeline touches. -/
structure Page where
  id : String
  sheet_number : Option String
  discipline_code : Option String
  processing_status : PStatus
  pass1_output : Option Pass1Out
  inbound_references : List InboundEntry
  pass2_output : Option Pass2Out
  retry_count : Nat
  error_message : Option String
  deriving DecidableEq, Repr

/-! ## ReferenceResolver: `compute_inbound_references` (lines 132-199) -/

/-- Python truthiness of an optional string field: `None` and `""` are falsy;
used for the `if ref.get("source_element_id"):` copies. -/
def keepTruthy (o : Option String) : Option String :=
  match o with
  | some s => if s = "" then none else some s
  | none => none

/-- The `page_lookup` dict: normalized sheet key mapped to the raw sheet
number, built over all pages with a truthy `sheet_number`.  A Python dict
assignment overwrites, so the last page wins; reversing before building the
association list gives `List.lookup` the same semantics. -/
def pageLookup (pages : List Page) : List (String × String) :=
  pages.reverse.filterMap (fun p =>
    match p.sheet_number with
    | some s => if s = "" then none else some (normalize_sheet_ref s, s)
    | none => none)

/-- The flattened `(pointer_id, outbound_ref)` occurrences of a Pass 1
output, in the order the nested `for pointer / for ref` loops visit them. -/
def occList (o : Pass1Out) : List (String × OutRef) :=
  o.pointers.flatMap (fun ptr => ptr.outbound_refs.map (fun r => (ptr.pointer_id, r)))

/-- The inbound entry built for one occurrence: source page data plus the
original reference string; `context` is intentionally omitted. -/
def entryOf (p : Page) (pid : String) (r : OutRef) : InboundEntry :=
  { source_sheet := p.sheet_number
    source_page_id := p.id
    from_pointer := pid
    rtype := r.rtype
    original_ref := r.ref
    source_element_id := keepTruthy r.source_element_id
    source_text := keepTruthy r.source_text
    context := none }

/-- The `(target_sheet, entry)` pairs one source page contributes to
`inbound_map`: an occurrence produces an entry exactly when its reference
normalizes to a non-empty key present in `page_lookup`. -/
def pageGenerated (lookup : List (String × String)) (p : Page) : List (String × InboundEntry) :=
  let occs : List (String × OutRef) :=
    match p.pass1_output with
    | some o => occList o
    | none => []
  occs.filterMap (fun pr =>
    let nr := normalize_sheet_ref pr.2.ref
    if nr = "" then none
    else
      match List.lookup nr lookup with
      | some target => some (target, entryOf p pr.1 pr.2)
      | none => none)

/-- All `(target_sheet, entry)` pairs, in generation order. -/
def generatedEntries (lookup : List (String × String)) (pages : List Page) :
    List (String × InboundEntry) :=
  pages.flatMap (pageGenerated lookup)

/-- The pages selected by the resolver query:
`processing_status == "pass1_complete"`. -/
def p1Pages (pages : List Page) : List Page :=
  pages.filter (fun p => decide (p.processing_status = PStatus.pass1_complete))

/-- The final per-page write of the resolver: a `pass1_complete` page
receives its `inbound_map` bucket (`inbound_map.get(page.sheet_number, [])`),
other pages are untouched. -/
def resolveUpdate (gen : List (String × InboundEntry)) (p : Page) : Page :=
  if p.processing_status = PStatus.pass1_complete then
    { p with inbound_references :=
        match p.sheet_number with
        | some s => gen.filterMap (fun te => if te.1 = s then some te.2 else none)
        | none => [] }
  else p

/-- Embedding of `compute_inbound_references`: over the `pass1_complete`
pages, invert outbound references through the normalized lookup and replace
each of those pages' `inbound_references` with its `inbound_map` bucket;
when no page is `pass1_complete` the function returns early. -/
def computeInboundReferences (pages : List Page) : List Page :=
  if p1Pages pages = [] then pages
  else
    pages.map
      (resolveUpdate (generatedEntries (pageLookup (p1Pages pages)) (p1Pages pages)))

/-- How many occurrences of the outbound reference `(pid, R, T)` a Pass 1
output contains. -/
def occCount (o : Pass1Out) (pid R T : String) : Nat :=
  (occList o).countP (fun pr => pr.1 == pid && pr.2.ref == R && pr.2.rtype == T)

/-- Whether an inbound entry was derived from the occurrence `(pid, R, T)`
of source page `aid`. -/
def matchesOcc (e : InboundEntry) (aid pid R T : String) : Bool :=
  e.source_page_id == aid && e.from_pointer == pid && e.original_ref == R && e.rtype == T

/-! ### List helper lemmas -/

/-! ### Inversion lemmas for the resolver -/

/-- The Pass 1 output of the sample page "A-101": one pointer with a single
outbound reference to "B-201". -/
def wOutA : Pass1Out :=
  { discipline := "A", summary := "plan", sheet_number := none,
    pointers := [{ pointer_id := "ptr1", summary := "callout",
                   outbound_refs := [{ ref := "B-201", rtype := "sheet",
                                       source_element_id := none,
                                       source_text := none }] }] }

/-- A sample source page "A-101" whose Pass 1 output references "B-201". -/
def wPageA : Page :=
  { id := "idA", sheet_number := some "A-101", discipline_code := some "A",
    processing_status := PStatus.pass1_complete,
    pass1_output := some wOutA,
    inbound_references := [], pass2_output := none, retry_count := 0,
    error_message := none }

/-- A sample target page with sheet number "B-201" and no outbound refs. -/
def wPageB : Page :=
  { id := "idB", sheet_number := some "B-201", discipline_code := some "M",
    processing_status := PStatus.pass1_complete,
    pass1_output := some
      { discipline := "M", summary := "mech", sheet_number := none,
        pointers := [] },
    inbound_references := [], pass2_output := none, retry_count := 0,
    error_message := none }

/-- The two-page sample project used by the concrete witnesses. -/
def wPages : List Page := [wPageA, wPageB]

/-! ## ContextPropagator: `propagate_inbound_context` (lines 202-267) -/

/-- The pages selected by the propagation query:
`processing_status == "pass2_complete"`. -/
def p2Pages (pages : List Page) : List Page :=
  pages.filter (fun p => decide (p.processing_status = PStatus.pass2_complete))

/-- The `context_lookup` dict built from every selected page's
`pass2_output`: key `(source_sheet, ref)`, value the context string; only
truthy `ref` and truthy `sheet_number` contribute, later entries overwrite
(last wins under `List.lookup` after reversing). -/
def contextLookup (pages : List Page) : List ((String × String) × String) :=
  (pages.flatMap (fun p =>
    let rcs : List RefCtx :=
      match p.pass2_output with
      | some o => o.outbound_refs_context
      | none => []
    rcs.filterMap (fun rc =>
      match p.sheet_number with
      | some s =>
        if rc.ref = "" then none
        else if s = "" then none
        else some ((s, rc.ref), rc.context)
      | none => none))).reverse

/-- The per-entry update of the propagation loop: a matched
`(source_sheet, original_ref)` key copies the looked-up context; an unmatched
entry that does not yet have a context gets the empty string; an unmatched
entry that already has one keeps it. -/
def propagateEntry (lookup : List ((String × String) × String))
    (e : InboundEntry) : InboundEntry :=
  match (match e.source_sheet with
         | some s => List.lookup (s, e.original_ref) lookup
         | none => none) with
  | some c => { e with context := some c }
  | none =>
    match e.context with
    | some _ => e
    | none => { e with context := some "" }

/-- Embedding of `propagate_inbound_context`: for every `pass2_complete`
page, rewrite each inbound entry through `propagateEntry`; other pages are
untouched.  The returned list is the database state after the final
`db.commit()`. -/
def propagateInboundContext (pages : List Page) : List Page :=
  if p2Pages pages = [] then pages
  else
    pages.map (fun p =>
      if p.processing_status = PStatus.pass2_complete then
        { p with inbound_references :=
            p.inbound_references.map (propagateEntry (contextLookup (p2Pages pages))) }
      else p)

/-- Sample Pass 2 output of page "A-101": a context string for its reference
to "B-201". -/
def w2OutA : Pass2Out :=
  { outbound_refs_context := [{ ref := "B-201", context := "shows the duct chase" }] }

/-- Sample source page for the propagation witness. -/
def w2PageA : Page :=
  { id := "idA", sheet_number := some "A-101", discipline_code := some "A",
    processing_status := PStatus.pass2_complete,
    pass1_output := none, inbound_references := [],
    pass2_output := some w2OutA, retry_count := 0, error_message := none }

/-- Sample target page: one inbound entry matched by the lookup and one that
no Pass 2 context matches. -/
def w2PageB : Page :=
  { id := "idB", sheet_number := some "B-201", discipline_code := some "M",
    processing_status := PStatus.pass2_complete,
    pass1_output := none,
    inbound_references :=
      [{ source_sheet := some "A-101", source_page_id := "idA",
         from_pointer := "ptr1", rtype := "sheet", original_ref := "B-201",
         source_element_id := none, source_text := none, context := none },
       { source_sheet := some "Z-900", source_page_id := "idZ",
         from_pointer := "ptrZ", rtype := "sheet", original_ref := "B-201",
         source_element_id := none, source_text := none, context := none }],
    pass2_output := some { outbound_refs_context := [] },
    retry_count := 0, error_message := none }

/-- The two-page sample project for the propagation witness. -/
def w2Pages : List Page := [w2PageA, w2PageB]

/-! ## Oracle call: `_clean_json_response` (lines 359-406),
`_retry_with_backoff` (lines 283-314), `_call_gemini_json` (lines 317-356) -/

/-- Python `str.strip()` whitespace (ASCII subset). -/
def isPyWs (c : Char) : Bool :=
  c = ' ' || c = '\t' || c = '\n' || c = '\r' || c = '\x0B' || c = '\x0C'

/-- Python `str.strip()`: drop whitespace from both ends. -/
def stripL (s : List Char) : List Char :=
  ((s.dropWhile isPyWs).reverse.dropWhile isPyWs).reverse

/-- Python `str.startswith(pre)` on character lists. -/
def startsWithL : List Char → List Char → Bool
  | [], _ => true
  | _ :: _, [] => false
  | p :: ps, c :: cs => p = c && startsWithL ps cs

/-- Python `str.endswith(suf)` on character lists. -/
def endsWithL (suf s : List Char) : Bool := startsWithL suf.reverse s.reverse

/-- Python `str.split(sep)` for a one-character separator, keeping empty
pieces (the general form of `splitOnSlash`). -/
def splitOnChar (sep : Char) : List Char → List (List Char)
  | [] => [[]]
  | c :: rest =>
    let r := splitOnChar sep rest
    if c = sep then [] :: r
    else
      match r with
      | [] => [[c]]
      | h :: t => (c :: h) :: t

/-- Python `"\n".join(lines)`. -/
def joinNl : List (List Char) → List Char
  | [] => []
  | [l] => l
  | l :: ls => l ++ '\n' :: joinNl ls

/-- The markdown-fence block of `_clean_json_response`: when the stripped
response starts with a triple backtick, drop the fence's first line and a
closing fence line. -/
def cleanFence (c0 : List Char) : List Char :=
  if startsWithL ['`', '`', '`'] c0 then
    let lines := splitOnChar '\n' c0
    let lines1 :=
      match lines with
      | l :: rest => if startsWithL ['`', '`', '`'] l then rest else lines
      | [] => lines
    let lines2 :=
      match lines1.getLast? with
      | some last => if stripL last = ['`', '`', '`'] then lines1.dropLast else lines1
      | none => lines1
    joinNl lines2
  else c0

/-- The single-backtick block: a body wrapped in lone backticks loses them. -/
def cleanTick (c1 : List Char) : List Char :=
  if startsWithL ['`'] c1 && endsWithL ['`'] c1 && !(startsWithL ['`', '`', '`'] c1) then
    (c1.drop 1).dropLast
  else c1

/-- Python `str.find(c)`: index of the first occurrence. -/
def firstIdx (c : Char) (l : List Char) : Option Nat := l.findIdx? (fun x => x = c)

/-- Python `str.rfind(c)`: index of the last occurrence. -/
def lastIdx (c : Char) (l : List Char) : Option Nat :=
  match l.reverse.findIdx? (fun x => x = c) with
  | some i => some (l.length - 1 - i)
  | none => none

/-- Python slice `l[a:b+1]`. -/
def sliceL (l : List Char) (a b : Nat) : List Char := (l.drop a).take (b + 1 - a)

/-- The brace-extraction block: when the text does not already start with a
brace or bracket, cut from the first opening brace (or bracket, whichever
comes first) to the matching last closing one, if that span is non-trivial. -/
def extractJson (c2 : List Char) : List Char :=
  if startsWithL ['{'] c2 || startsWithL ['['] c2 then c2
  else
    let braceCase : Nat → List Char := fun fb =>
      match lastIdx '}' c2 with
      | some lb => if fb < lb then sliceL c2 fb lb else c2
      | none => c2
    let bracketCase : Nat → List Char := fun fk =>
      match lastIdx ']' c2 with
      | some lk => if fk < lk then sliceL c2 fk lk else c2
      | none => c2
    match firstIdx '{' c2, firstIdx '[' c2 with
    | some fb, some fk => if fb < fk then braceCase fb else bracketCase fk
    | some fb, none => braceCase fb
    | none, some fk => bracketCase fk
    | none, none => c2

/-- Embedding of `_clean_json_response`: strip, unfence, untick, extract,
strip again. -/
def cleanJsonResponseL (response : List Char) : List Char :=
  stripL (extractJson (cleanTick (cleanFence (stripL response))))

/-- `_clean_json_response` on `String`. -/
def cleanJsonResponse (s : String) : String := String.mk (cleanJsonResponseL s.data)

/-- The outcome of one `_generate` oracle invocation: a transient API error
(`ResourceExhausted` / `DeadlineExceeded` / `ServiceUnavailable`), a fatal
error raised through, or a raw response text. -/
inductive AttemptResult where
  | transient
  | fatal (msg : String)
  | response (s : String)
  deriving DecidableEq, Repr

/-- `MAX_RETRIES` of the transient-error backoff loop. -/
def MAX_RETRIES : Nat := 3

/-- Embedding of `_retry_with_backoff` over a list enumerating the outcomes
of successive oracle invocations: transient errors consume an attempt and a
list element; a response or fatal error stops the loop.  The second component
is the list of oracle outcomes never consumed. -/
def retryWithBackoff : Nat → List AttemptResult → Except String String × List AttemptResult
  | 0, rest => (Except.error "transient retries exhausted", rest)
  | Nat.succ _, [] => (Except.error "no oracle outcome", [])
  | Nat.succ n, a :: rest =>
    match a with
    | AttemptResult.transient => retryWithBackoff n rest
    | AttemptResult.fatal msg => (Except.error msg, rest)
    | AttemptResult.response s => (Except.ok s, rest)

/-- A diagnostic in the shape of Python's `json.JSONDecodeError`: the
position of the failure and its message. -/
def decodeErrorMsg (pe : Nat × String) : String :=
  "JSONDecodeError at position " ++ toString pe.1 ++ ": " ++ pe.2

/-- Embedding of `_call_gemini_json`, parameterized by the JSON parser
(`json.loads`): run the backoff loop, clean the response and parse it.  A
parse failure is raised as-is; no further oracle outcome is consumed, so the
returned remainder shows that no parse-triggered retry happens. -/
def callGeminiJson {J : Type} (parse : String → Except (Nat × String) J)
    (attempts : List AttemptResult) : Except String J × List AttemptResult :=
  match retryWithBackoff MAX_RETRIES attempts with
  | (Except.error e, rest) => (Except.error e, rest)
  | (Except.ok r, rest) =>
    match parse (cleanJsonResponse r) with
    | Except.ok j => (Except.ok j, rest)
    | Except.error pe => (Except.error (decodeErrorMsg pe), rest)

/-- The truncation test of the extended-budget retry in
`gemini_service.analyze_context_pointer`: the parse error position lies in
the last 50 characters of a non-empty response. -/
def truncationPositioned (pos len : Nat) : Bool :=
  decide (0 < len ∧ len ≤ pos + 50)

/-- A concrete oracle response that is valid JSON prefix cut off mid-object:
parsing fails at its end. -/
def cxBad : String := "\x7b\x22a\x22: 1, \x22b\x22:"

/-- The complete response the oracle would give on a retry. -/
def cxGood : String := "\x7b\x22a\x22: 1\x7d"

/-- A concrete stand-in for `json.loads` on the two responses above:
`cxBad` fails at its final position (a truncation-shaped failure), `cxGood`
parses. -/
def cxParse : String → Except (Nat × String) Unit := fun s =>
  if s = cxBad then Except.error (cxBad.length, "Expecting value")
  else if s = cxGood then Except.ok ()
  else Except.error (0, "Expecting value")

/-! ## PageAnalyzer / CrossReferenceAnnotator:
`process_pass1` (lines 1194-1290) and `process_pass2` (lines 1417-1526),
modelled as the sequence of states committed to the database. -/

/-- The keys of the `DISCIPLINE_CODES` mapping. -/
def DISCIPLINE_CODES : List String := ["A", "S", "M", "E", "P", "FP", "C", "L", "G"]

/-- Embedding of `process_pass1` as its list of committed page states, given
the oracle outcome and the optional sheet number the filename-pattern
fallback would yield.  The first commit sets `pass1_processing`; on success
one commit writes output, discipline, sheet and `pass1_complete` together;
on an oracle error the inner handler commits `error` with the prefixed
message and the outer handler commits `error` with the plain message. -/
def processPass1Trace (page : Page) (oracle : Except String Pass1Out)
    (fallbackSheet : Option String) : List Page :=
  let p0 := { page with processing_status := PStatus.pass1_processing }
  match oracle with
  | Except.error e =>
    [p0,
     { p0 with processing_status := PStatus.error,
               error_message := some ("Pass 1 Gemini error: " ++ e) },
     { p0 with processing_status := PStatus.error, error_message := some e }]
  | Except.ok result =>
    let discipline := if result.discipline ∈ DISCIPLINE_CODES then result.discipline else "G"
    let sheet :=
      match keepTruthy result.sheet_number with
      | some s => some s
      | none =>
        match fallbackSheet with
        | some f => some f
        | none => p0.sheet_number
    [p0,
     { p0 with discipline_code := some discipline,
               pass1_output := some result,
               sheet_number := sheet,
               processing_status := PStatus.pass1_complete,
               error_message := none }]

/-- Embedding of `process_pass2` as its list of committed page states, given
the oracle outcome: `pass2_processing` first, then either the joint
output-and-status commit or the two error commits. -/
def processPass2Trace (page : Page) (oracle : Except String Pass2Out) : List Page :=
  let p0 := { page with processing_status := PStatus.pass2_processing }
  match oracle with
  | Except.error e =>
    [p0,
     { p0 with processing_status := PStatus.error,
               error_message := some ("Pass 2 Gemini error: " ++ e) },
     { p0 with processing_status := PStatus.error, error_message := some e }]
  | Except.ok result =>
    [p0,
     { p0 with pass2_output := some result,
               processing_status := PStatus.pass2_complete,
               error_message := none }]

/-- The status/output coupling: a page claiming a pass complete carries that
pass's output. -/
def statusOutputInv (p : Page) : Prop :=
  (p.processing_status = PStatus.pass1_complete → p.pass1_output.isSome = true)
  ∧ (p.processing_status = PStatus.pass2_complete → p.pass2_output.isSome = true)

/-! ## Orchestrator sweep: `_sweep_and_retry_orphans` (lines 1349-1415) -/

/-- The sweep's orphan query:
`processing_status.in_(["unprocessed", "error", "pass1_processing"])`. -/
def sweepSelect (p : Page) : Bool :=
  p.processing_status = PStatus.unprocessed
  || p.processing_status = PStatus.error
  || p.processing_status = PStatus.pass1_processing

/-- The value `_sweep_and_retry_orphans` computes: the committed page states,
the number of pages reset for retry, and the permanently failed pages it
reports. -/
structure SweepResult where
  pages : List Page
  retried : Nat
  failed : List Page
  deriving DecidableEq, Repr

/-- The reset applied to a retryable orphan: back to `unprocessed`,
`retry_count` incremented, `error_message` cleared. -/
def resetPage (p : Page) : Page :=
  { p with processing_status := PStatus.unprocessed,
           retry_count := p.retry_count + 1,
           error_message := none }

/-- Embedding of `_sweep_and_retry_orphans` (default budget
`max_retries = 3`): orphans under the budget are reset to `unprocessed` with
an incremented `retry_count` and a cleared error message; orphans at the
budget are reported as permanently failed and left untouched. -/
def sweepAndRetryOrphans (maxRetries : Nat) (pages : List Page) : SweepResult :=
  let orphans := pages.filter sweepSelect
  let retryable := orphans.filter (fun p => decide (p.retry_count < maxRetries))
  let failed := orphans.filter (fun p => decide (maxRetries ≤ p.retry_count))
  { pages := pages.map (fun p =>
      if sweepSelect p = true ∧ p.retry_count < maxRetries then resetPage p else p),
    retried := retryable.length,
    failed := failed }

/-- A page orphaned mid Pass 2 — not `pass2_complete`, but also not in the
sweep's three-status query. -/
def c8Page : Page :=
  { id := "p1", sheet_number := none, discipline_code := none,
    processing_status := PStatus.pass2_processing, pass1_output := none,
    inbound_references := [], pass2_output := none, retry_count := 0,
    error_message := none }

/-- A permanently failed orphan: status `error` at the retry budget. -/
def c8ErrPage : Page :=
  { id := "p2", sheet_number := none, discipline_code := none,
    processing_status := PStatus.error, pass1_output := none,
    inbound_references := [], pass2_output := none, retry_count := 3,
    error_message := some "Pass 1 Gemini error: boom" }

/-! ## Orchestrator loop: `start_processing` (lines 1024-1121),
`run_pass1` (lines 1123-1192) and `run_pass2` (lines 1292-1347).

Each phase drives every selected page to the last committed state of its
per-page trace; the per-iteration oracle outcomes are an environment
parameter. -/

/-- The pages selected by `get_pages_for_pass2`:
`processing_status.in_(["pass1_complete", "pass2_processing"])`. -/
def pass2Select (p : Page) : Bool :=
  p.processing_status = PStatus.pass1_complete
  || p.processing_status = PStatus.pass2_processing

/-- One `run_pass1` phase: every page selected by `get_pages_for_processing`
(the same three statuses the sweep queries) ends in the last committed state
of its `process_pass1` run; other pages are untouched. -/
def runPass1Model (oracle : String → Except String Pass1Out)
    (fallback : String → Option String) (pages : List Page) : List Page :=
  pages.map (fun p =>
    if sweepSelect p = true then
      (processPass1Trace p (oracle p.id) (fallback p.id)).getLastD p
    else p)

/-- One `run_pass2` phase: every page selected by `get_pages_for_pass2` ends
in the last committed state of its `process_pass2` run. -/
def runPass2Model (oracle : String → Except String Pass2Out)
    (pages : List Page) : List Page :=
  pages.map (fun p =>
    if pass2Select p = true then
      (processPass2Trace p (oracle p.id)).getLastD p
    else p)

/-- The per-iteration oracle outcomes of a whole run: Pass 1 and Pass 2
results by iteration number and page id, and the filename-fallback sheet
number of each page. -/
structure PassEnv where
  oracle1 : Nat → String → Except String Pass1Out
  fallback : String → Option String
  oracle2 : Nat → String → Except String Pass2Out

/-- One loop iteration's phases: `run_pass1` then `run_pass2`. -/
def runPhases (env : PassEnv) (i : Nat) (pages : List Page) : List Page :=
  runPass2Model (env.oracle2 i) (runPass1Model (env.oracle1 i) env.fallback pages)

/-- The retry loop of `start_processing`: sweep; stop when nothing was
retried, reporting the final pages and the last sweep's permanently failed
list; otherwise re-run both phases and sweep again.  `fuel` bounds the number
of sweeps; exhausting it returns `none`. -/
def sweepLoop (env : PassEnv) : Nat → Nat → List Page → Option (List Page × List Page)
  | 0, _, _ => none
  | Nat.succ fuel, i, pages =>
    let sw := sweepAndRetryOrphans 3 pages
    if sw.retried = 0 then some (sw.pages, sw.failed)
    else sweepLoop env fuel (i + 1) (runPhases env (i + 1) sw.pages)

/-- Embedding of `start_processing`: Pass 1, reference resolution, Pass 2,
context propagation, then the sweep-and-retry loop. -/
def startProcessingModel (env : PassEnv) (fuel : Nat) (pages : List Page) :
    Option (List Page × List Page) :=
  let s1 := runPass1Model (env.oracle1 0) env.fallback pages
  let s2 := computeInboundReferences s1
  let s3 := runPass2Model (env.oracle2 0) s2
  let s4 := propagateInboundContext s3
  sweepLoop env fuel 0 s4

/-- The sweep-loop's termination potential: each page can still be reset at
most `3 - retry_count` times. -/
def potential (pages : List Page) : Nat :=
  (pages.map (fun p => 3 - p.retry_count)).sum

/-! ### Loop lemmas -/

/-- After a `run_pass1` phase no page is left in `unprocessed` or
`pass1_processing`. -/
def notPreP1 (p : Page) : Prop :=
  p.processing_status ≠ PStatus.unprocessed
  ∧ p.processing_status ≠ PStatus.pass1_processing

/-! ## Job tracking: `_get_active_job` / `_create_job` / `_clear_job`
(context_tree.py, lines 41-75) and the trigger endpoints (lines 287-359),
for one project. -/

/-- The two job kinds. -/
inductive JKind where
  | pages
  | disciplines
  deriving DecidableEq, Repr

/-- Response status of a trigger endpoint. -/
inductive TriggerStatus where
  | started
  | already_running
  deriving DecidableEq, Repr

/-- One project's job state: `_active_jobs[project_id]` holds at most one
`(job_id, type)` entry; `running` lists the background tasks actually
executing; `nextId` generates fresh job ids (standing in for `uuid4`). -/
structure JobsState where
  registry : Option (Nat × JKind)
  running : List (Nat × JKind)
  nextId : Nat
  deriving DecidableEq, Repr

/-- Embedding of a trigger endpoint (`trigger_page_processing` /
`trigger_discipline_processing`): if the registry holds a job of the
requested kind, answer `already_running` with its id; otherwise `_create_job`
overwrites the registry entry — whatever its kind — and a new background run
starts. -/
def triggerProcessing (k : JKind) (s : JobsState) : JobsState × (Nat × TriggerStatus) :=
  match s.registry with
  | some (j, kr) =>
    if kr = k then (s, (j, TriggerStatus.already_running))
    else
      ({ registry := some (s.nextId, k),
         running := s.running ++ [(s.nextId, k)],
         nextId := s.nextId + 1 }, (s.nextId, TriggerStatus.started))
  | none =>
    ({ registry := some (s.nextId, k),
       running := s.running ++ [(s.nextId, k)],
       nextId := s.nextId + 1 }, (s.nextId, TriggerStatus.started))

/-- Embedding of a background task finishing: `_clear_job` pops the
project's registry entry unconditionally, whichever job it now holds. -/
def finishJob (j : Nat) (s : JobsState) : JobsState :=
  { registry := none,
    running := s.running.filter (fun r => decide (r.1 ≠ j)),
    nextId := s.nextId }

/-! ## Discipline readiness: `PageProcessor.check_discipline_ready`
(lines 1528-1577) and `DisciplineProcessor.on_discipline_ready`
(lines 1604-1615), for one project. -/

/-- The discipline status enum. -/
inductive DStatus where
  | waiting
  | ready
  | processing
  | complete
  | error
  deriving DecidableEq, Repr

/-- A `DisciplineContext` row restricted to the fields the check touches. -/
structure Disc where
  code : String
  name : String
  processing_status : DStatus
  deriving DecidableEq, Repr

/-- One project's state as seen by the readiness check: its pages, its
discipline rows, the `discipline_ready` events emitted so far and the
`DisciplineProcessor.ready_disciplines` queue. -/
structure ProjState where
  pages : List Page
  disciplines : List Disc
  events : List String
  queue : List String
  deriving DecidableEq, Repr

/-- The first discipline row matching the code — the row the query's
`.first()` returns — is flipped to `ready` in place. -/
def setReadyFirst (code : String) : List Disc → List Disc
  | [] => []
  | d :: rest =>
    if d.code == code then { d with processing_status := DStatus.ready } :: rest
    else d :: setReadyFirst code rest

/-- Embedding of `check_discipline_ready` composed with
`on_discipline_ready`: count the pages carrying the discipline code and the
`pass2_complete` ones among them; when the counts are positive and equal and
the first matching discipline row is `waiting`, flip it to `ready`, emit the
`discipline_ready` event and queue the code for Pass 3 (without duplicates);
in every other case return the state unchanged with `false`. -/
def checkDisciplineReady (code : String) (st : ProjState) : ProjState × Bool :=
  let total := st.pages.countP (fun p => p.discipline_code == some code)
  let complete := st.pages.countP (fun p =>
    p.discipline_code == some code
      && decide (p.processing_status = PStatus.pass2_complete))
  if 0 < total ∧ total = complete then
    match st.disciplines.find? (fun d => d.code == code) with
    | some d =>
      if d.processing_status = DStatus.waiting then
        ({ st with
            disciplines := setReadyFirst code st.disciplines,
            events := st.events ++ [code],
            queue := if code ∈ st.queue then st.queue else st.queue ++ [code] },
         true)
      else (st, false)
    | none => (st, false)
  else (st, false)

/-- A complete member page of discipline "A" for the readiness witness. -/
def c4Page : Page :=
  { id := "pA", sheet_number := some "A-101", discipline_code := some "A",
    processing_status := PStatus.pass2_complete, pass1_output := none,
    inbound_references := [], pass2_output := none, retry_count := 0,
    error_message := none }

/-- A waiting discipline row "A" for the readiness witness. -/
def c4Disc : Disc :=
  { code := "A", name := "Architectural", processing_status := DStatus.waiting }

/-- The one-page one-discipline project of the readiness witness. -/
def c4St : ProjState :=
  { pages := [c4Page], disciplines := [c4Disc], events := [], queue := [] }

/-! ## Theorems -/

/-- Claim C6: the reference normalizer is a pure total function mapping
"A-101", "A101" and "A.101" to the same key; on inputs without a slash it
strips the separators dash, dot and whitespace and upper-cases; on compound
detail/sheet callouts containing a slash it returns the cleaned form of the
first segment that, after stripping and upper-casing, begins with letters
followed by a digit. -/
theorem normalize_sheet_ref_spec :
    (normalize_sheet_ref "A-101" = normalize_sheet_ref "A101"
      ∧ normalize_sheet_ref "A101" = normalize_sheet_ref "A.101"
      ∧ normalize_sheet_ref "A101" = "A101")
    ∧ (∀ ref : List Char, ref.contains '/' = false → normList ref = cleanPart ref)
    ∧ (∀ ref p, ref.contains '/' = true →
        (splitOnSlash ref).find? (fun q => lettersThenDigit (cleanPart q)) = some p →
        normList ref = cleanPart p ∧ lettersThenDigit (cleanPart p) = true
          ∧ p ∈ splitOnSlash ref)
    ∧ normalize_sheet_ref "3/A-501" = "A501" := by
  refine ⟨⟨by decide, by decide, by decide⟩, ?_, ?_, by decide⟩
  · intro ref h
    unfold normList
    rcases Decidable.em (ref = []) with he | he
    · subst he; simp [cleanPart]
    · rw [if_neg he, h]
      simp
  · intro ref p h hf
    have hp : lettersThenDigit (cleanPart p) = true := by
      have hq := List.find?_some hf
      simpa using hq
    refine ⟨?_, hp, List.mem_of_find?_eq_some hf⟩
    unfold normList
    have hne : ¬ ref = [] := by
      intro he
      subst he
      exact absurd h (by decide)
    rw [if_neg hne, h]
    simp [hf]

/-- Witness instantiating `normalize_sheet_ref_spec` at the compound callout
"3/A-501", whose sheet-bearing segment is "A-501". -/
theorem normalize_sheet_ref_spec_witness :
    ("3/A-501".data.contains '/' = true
      ∧ (splitOnSlash "3/A-501".data).find?
          (fun q => lettersThenDigit (cleanPart q)) = some "A-501".data)
    ∧ normList "3/A-501".data = cleanPart "A-501".data := by
  refine ⟨⟨by decide, by decide⟩, ?_⟩
  exact (normalize_sheet_ref_spec.2.2.1 "3/A-501".data "A-501".data (by decide)
    (by decide)).1

theorem countP_filterMap_congr {α β : Type} (f : α → Option β) (p : β → Bool) (q : α → Bool) :
    ∀ l : List α,
      (∀ a ∈ l, (match f a with | some b => p b | none => false) = q a) →
      (l.filterMap f).countP p = l.countP q := by
  intro l
  induction l with
  | nil => intro _; rfl
  | cons a l ih =>
    intro h
    have ha := h a (List.mem_cons_self a l)
    have hrest := ih (fun x hx => h x (List.mem_cons_of_mem a hx))
    rw [List.filterMap_cons]
    cases hfa : f a with
    | none =>
      rw [hfa] at ha
      simp only [List.countP_cons, hrest, ← ha]
      simp
    | some b =>
      rw [hfa] at ha
      simp only [List.countP_cons, hrest, ← ha]

theorem countP_flatMap {α β : Type} (g : α → List β) (p : β → Bool) :
    ∀ l : List α, (l.flatMap g).countP p = (l.map (fun a => (g a).countP p)).sum := by
  intro l
  induction l with
  | nil => rfl
  | cons a l ih => simp [List.flatMap_cons, List.countP_append, ih]

theorem lookup_mem {α β : Type} [BEq α] [LawfulBEq α] {k : α} {v : β} :
    ∀ {l : List (α × β)}, List.lookup k l = some v → (k, v) ∈ l := by
  intro l
  induction l with
  | nil => intro h; simp [List.lookup] at h
  | cons a l ih =>
    obtain ⟨k', b⟩ := a
    intro h
    by_cases hk : (k == k') = true
    · have hkk : k = k' := eq_of_beq hk
      subst hkk
      simp [List.lookup] at h
      subst h
      exact List.mem_cons_self _ _
    · simp only [List.lookup, Bool.not_eq_true] at hk h
      rw [hk] at h
      exact List.mem_cons_of_mem _ (ih h)

theorem lookup_of_key_mem {α β : Type} [BEq α] [LawfulBEq α] {k : α} :
    ∀ {l : List (α × β)} {v : β}, (k, v) ∈ l → ∃ w, List.lookup k l = some w := by
  intro l
  induction l with
  | nil => intro v h; simp at h
  | cons a l ih =>
    obtain ⟨k', b⟩ := a
    intro v h
    by_cases hk : (k == k') = true
    · exact ⟨b, by simp [List.lookup, hk]⟩
    · rcases List.mem_cons.1 h with he | hm
      · injection he with h1 h2
        subst h1
        exact absurd (beq_self_eq_true k) hk
      · obtain ⟨w, hw⟩ := ih hm
        refine ⟨w, ?_⟩
        simp only [List.lookup, Bool.not_eq_true] at hk ⊢
        rw [hk, hw]

theorem pageGenerated_mem {lookup : List (String × String)} {p : Page}
    {te : String × InboundEntry} (h : te ∈ pageGenerated lookup p) :
    te.2.source_sheet = p.sheet_number ∧ te.2.source_page_id = p.id ∧
    ∃ pr : String × OutRef,
      (∃ o, p.pass1_output = some o ∧ pr ∈ occList o) ∧
      te.2.from_pointer = pr.1 ∧ te.2.original_ref = pr.2.ref ∧
      te.2.rtype = pr.2.rtype ∧ normalize_sheet_ref pr.2.ref ≠ "" ∧
      List.lookup (normalize_sheet_ref pr.2.ref) lookup = some te.1 := by
  unfold pageGenerated at h
  rw [List.mem_filterMap] at h
  obtain ⟨pr, hpr, hf⟩ := h
  obtain ⟨t1, t2⟩ := te
  have hocc : ∃ o, p.pass1_output = some o ∧ pr ∈ occList o := by
    cases ho : p.pass1_output with
    | none => rw [ho] at hpr; simp at hpr
    | some o => rw [ho] at hpr; exact ⟨o, rfl, hpr⟩
  by_cases hnr : normalize_sheet_ref pr.2.ref = ""
  · simp [hnr] at hf
  · cases hlk : List.lookup (normalize_sheet_ref pr.2.ref) lookup with
    | none => simp [hnr, hlk] at hf
    | some target =>
      simp [hnr, hlk] at hf
      obtain ⟨hf1, hf2⟩ := hf
      subst hf1
      subst hf2
      exact ⟨rfl, rfl, pr, hocc, rfl, rfl, rfl, hnr, by rw [hlk]⟩

theorem pageLookup_mem_inv {pages : List Page} {k v : String}
    (h : (k, v) ∈ pageLookup pages) :
    ∃ p ∈ pages, p.sheet_number = some v ∧ v ≠ "" ∧ k = normalize_sheet_ref v := by
  unfold pageLookup at h
  rw [List.mem_filterMap] at h
  obtain ⟨p, hp, hf⟩ := h
  rw [List.mem_reverse] at hp
  refine ⟨p, hp, ?_⟩
  cases hs : p.sheet_number with
  | none => rw [hs] at hf; simp at hf
  | some s =>
    rw [hs] at hf
    by_cases he : s = ""
    · simp [he] at hf
    · simp [he] at hf
      obtain ⟨h1, h2⟩ := hf
      subst h2
      exact ⟨rfl, he, h1.symm⟩

theorem pageLookup_mem {pages : List Page} {p : Page} {s : String}
    (hp : p ∈ pages) (hs : p.sheet_number = some s) (hne : s ≠ "") :
    (normalize_sheet_ref s, s) ∈ pageLookup pages := by
  unfold pageLookup
  rw [List.mem_filterMap]
  refine ⟨p, List.mem_reverse.2 hp, ?_⟩
  rw [hs]
  simp [hne]

theorem lookup_pageLookup {pages : List Page} {R sB : String} {B : Page}
    (hB : B ∈ pages) (hBs : B.sheet_number = some sB) (hne : sB ≠ "")
    (hkey : normalize_sheet_ref sB = normalize_sheet_ref R)
    (huniq : ∀ p ∈ pages, ∀ s, p.sheet_number = some s → s ≠ "" →
      normalize_sheet_ref s = normalize_sheet_ref R → s = sB) :
    List.lookup (normalize_sheet_ref R) (pageLookup pages) = some sB := by
  have hmem : (normalize_sheet_ref R, sB) ∈ pageLookup pages := by
    have hm := pageLookup_mem hB hBs hne
    rwa [hkey] at hm
  obtain ⟨w, hw⟩ := lookup_of_key_mem hmem
  have hwmem := lookup_mem hw
  obtain ⟨p, hp2, hps, hpne, hk⟩ := pageLookup_mem_inv hwmem
  have hwv : w = sB := huniq p hp2 w hps hpne hk.symm
  rw [hw, hwv]

theorem pageGenerated_countP_zero {lookup : List (String × String)} {p A : Page}
    {sB pid R T : String} (hne : p.id ≠ A.id) :
    (pageGenerated lookup p).countP
      (fun te => te.1 == sB && matchesOcc te.2 A.id pid R T) = 0 := by
  rw [List.countP_eq_zero]
  intro te hte
  obtain ⟨-, hid, -⟩ := pageGenerated_mem hte
  simp [matchesOcc, hid, hne]

theorem pageGenerated_countP_self {lookup : List (String × String)} {A : Page}
    {o : Pass1Out} {sB pid R T : String}
    (hAo : A.pass1_output = some o)
    (hRne : normalize_sheet_ref R ≠ "")
    (hlook : List.lookup (normalize_sheet_ref R) lookup = some sB) :
    (pageGenerated lookup A).countP
      (fun te => te.1 == sB && matchesOcc te.2 A.id pid R T) = occCount o pid R T := by
  unfold pageGenerated occCount
  rw [hAo]
  apply countP_filterMap_congr
  intro pr _
  by_cases hnr : normalize_sheet_ref pr.2.ref = ""
  · have h2 : pr.2.ref ≠ R := fun he => hRne (he ▸ hnr)
    simp [hnr, h2]
  · cases hlk : List.lookup (normalize_sheet_ref pr.2.ref) lookup with
    | none =>
      have h2 : pr.2.ref ≠ R := by
        intro he
        rw [he, hlook] at hlk
        exact absurd hlk (by simp)
      simp [hnr, hlk, h2]
    | some t =>
      by_cases h2 : pr.2.ref = R
      · have ht : t = sB := by
          rw [h2, hlook] at hlk
          injection hlk with hlk
          exact hlk.symm
        simp [hnr, hlk, entryOf, matchesOcc, ht, h2, hRne, hlook]
      · simp [hnr, hlk, entryOf, matchesOcc, h2]

/-- Claim C5: after reference resolution over a set of `pass1_complete`
pages with distinct ids, if page `A` has exactly one outbound occurrence
`(pid, R, T)` then: (a) a page `B` whose non-empty sheet number is the unique
sheet normalizing to `R`'s key ends up with exactly one inbound entry derived
from that occurrence, carrying `source_sheet = A.sheet_number`; and (b) if no
page's sheet number normalizes to `R`'s key, no resolved page has any inbound
entry for `R` at all (the reference is silently dropped). -/
theorem computeInboundReferences_spec
    (pages : List Page) (A : Page) (o : Pass1Out) (pid R T : String)
    (hA : A ∈ pages) (hA1 : A.processing_status = PStatus.pass1_complete)
    (hAo : A.pass1_output = some o) (hocc : occCount o pid R T = 1)
    (hnodup : ((p1Pages pages).map Page.id).Nodup) :
    (∀ B sB, B ∈ pages → B.processing_status = PStatus.pass1_complete →
      B.sheet_number = some sB → sB ≠ "" →
      normalize_sheet_ref sB = normalize_sheet_ref R →
      normalize_sheet_ref R ≠ "" →
      (∀ p ∈ pages, p.processing_status = PStatus.pass1_complete →
        ∀ s, p.sheet_number = some s → s ≠ "" →
          normalize_sheet_ref s = normalize_sheet_ref R → s = sB) →
      ∃ B', B' ∈ computeInboundReferences pages ∧ B'.id = B.id ∧
        B'.sheet_number = some sB ∧
        B'.inbound_references.countP (fun e => matchesOcc e A.id pid R T) = 1 ∧
        ∀ e ∈ B'.inbound_references, matchesOcc e A.id pid R T = true →
          e.source_sheet = A.sheet_number)
    ∧ ((∀ p ∈ pages, p.processing_status = PStatus.pass1_complete →
          ∀ s, p.sheet_number = some s → s ≠ "" →
            normalize_sheet_ref s ≠ normalize_sheet_ref R) →
        ∀ B' ∈ computeInboundReferences pages,
          B'.processing_status = PStatus.pass1_complete →
          ∀ e ∈ B'.inbound_references, e.original_ref ≠ R) := by
  have hAp1 : A ∈ p1Pages pages := List.mem_filter.2 ⟨hA, by simp [hA1]⟩
  constructor
  · intro B sB hB hB1 hBs hsne hkey hRne huniq
    have hBp1 : B ∈ p1Pages pages := List.mem_filter.2 ⟨hB, by simp [hB1]⟩
    have hp1ne : p1Pages pages ≠ [] := by
      intro h
      rw [h] at hBp1
      exact absurd hBp1 (List.not_mem_nil B)
    have hout : computeInboundReferences pages =
        pages.map (resolveUpdate
          (generatedEntries (pageLookup (p1Pages pages)) (p1Pages pages))) := by
      unfold computeInboundReferences
      rw [if_neg hp1ne]
    set gen := generatedEntries (pageLookup (p1Pages pages)) (p1Pages pages) with hgen
    have hlook : List.lookup (normalize_sheet_ref R) (pageLookup (p1Pages pages)) = some sB := by
      apply lookup_pageLookup hBp1 hBs hsne hkey
      intro p hp s hps hsne2 hkey2
      have hp2 := List.mem_filter.1 hp
      exact huniq p hp2.1 (of_decide_eq_true hp2.2) s hps hsne2 hkey2
    have hinb : (resolveUpdate gen B).inbound_references =
        gen.filterMap (fun te => if te.1 = sB then some te.2 else none) := by
      unfold resolveUpdate
      rw [if_pos hB1, hBs]
    refine ⟨resolveUpdate gen B, ?_, ?_, ?_, ?_, ?_⟩
    · rw [hout]
      exact List.mem_map_of_mem _ hB
    · unfold resolveUpdate
      split <;> rfl
    · unfold resolveUpdate
      rw [if_pos hB1, hBs]
    · rw [hinb]
      rw [countP_filterMap_congr (fun te => if te.1 = sB then some te.2 else none)
        (fun e => matchesOcc e A.id pid R T)
        (fun te => te.1 == sB && matchesOcc te.2 A.id pid R T) gen
        (by intro te _; by_cases h : te.1 = sB <;> simp [h])]
      rw [hgen]
      unfold generatedEntries
      rw [countP_flatMap]
      set lk := pageLookup (p1Pages pages) with hlkdef
      obtain ⟨l1, l2, hsplit⟩ := List.append_of_mem hAp1
      have hnd := hnodup
      rw [hsplit, List.map_append, List.map_cons] at hnd
      have hids1 : ∀ p ∈ l1, p.id ≠ A.id := by
        intro p hp he
        have hmem : A.id ∈ l1.map Page.id := he ▸ List.mem_map_of_mem Page.id hp
        have hdisj := (List.nodup_append.1 hnd).2.2
        exact hdisj hmem (List.mem_cons_self _ _)
      have hids2 : ∀ p ∈ l2, p.id ≠ A.id := by
        intro p hp he
        have hnd2 := (List.nodup_append.1 hnd).2.1
        have hA2 := (List.nodup_cons.1 hnd2).1
        exact hA2 (he ▸ List.mem_map_of_mem Page.id hp)
      rw [hsplit, List.map_append, List.map_cons, List.sum_append, List.sum_cons]
      have hz1 : (l1.map fun p => (pageGenerated lk p).countP
          (fun te => te.1 == sB && matchesOcc te.2 A.id pid R T)).sum = 0 := by
        apply List.sum_eq_zero
        intro x hx
        obtain ⟨p, hp, rfl⟩ := List.mem_map.1 hx
        exact pageGenerated_countP_zero (hids1 p hp)
      have hz2 : (l2.map fun p => (pageGenerated lk p).countP
          (fun te => te.1 == sB && matchesOcc te.2 A.id pid R T)).sum = 0 := by
        apply List.sum_eq_zero
        intro x hx
        obtain ⟨p, hp, rfl⟩ := List.mem_map.1 hx
        exact pageGenerated_countP_zero (hids2 p hp)
      rw [hz1, hz2, pageGenerated_countP_self hAo hRne hlook, hocc]
      omega
    · intro e he hm
      rw [hinb] at he
      obtain ⟨te, hte, hfe⟩ := List.mem_filterMap.1 he
      by_cases hts : te.1 = sB
      · rw [if_pos hts] at hfe
        injection hfe with hfe
        subst hfe
        rw [hgen] at hte
        unfold generatedEntries at hte
        obtain ⟨p, hp, htep⟩ := List.mem_flatMap.1 hte
        obtain ⟨hss, hid, -⟩ := pageGenerated_mem htep
        have hmA : te.2.source_page_id = A.id := by
          simp [matchesOcc] at hm
          exact hm.1.1.1
        have hpA : p = A := by
          apply List.inj_on_of_nodup_map hnodup hp hAp1
          rw [← hid, hmA]
        rw [hss, hpA]
      · rw [if_neg hts] at hfe
        exact absurd hfe (by simp)
  · intro hnm B' hB' hB'1 e he heR
    by_cases hp1 : p1Pages pages = []
    · unfold computeInboundReferences at hB'
      rw [if_pos hp1] at hB'
      have hmem : B' ∈ p1Pages pages := List.mem_filter.2 ⟨hB', by simp [hB'1]⟩
      rw [hp1] at hmem
      exact absurd hmem (List.not_mem_nil B')
    · unfold computeInboundReferences at hB'
      rw [if_neg hp1] at hB'
      obtain ⟨b, hb, hfb⟩ := List.mem_map.1 hB'
      have hstat : (resolveUpdate (generatedEntries (pageLookup (p1Pages pages))
          (p1Pages pages)) b).processing_status = b.processing_status := by
        unfold resolveUpdate
        split <;> rfl
      have hb1 : b.processing_status = PStatus.pass1_complete := by
        rw [← hstat, hfb]
        exact hB'1
      rw [← hfb] at he
      unfold resolveUpdate at he
      rw [if_pos hb1] at he
      cases hbs : b.sheet_number with
      | none =>
        rw [hbs] at he
        exact absurd he (List.not_mem_nil e)
      | some s =>
        rw [hbs] at he
        obtain ⟨te, hte, hfe⟩ := List.mem_filterMap.1 he
        by_cases hts : te.1 = s
        · rw [if_pos hts] at hfe
          injection hfe with hfe
          subst hfe
          unfold generatedEntries at hte
          obtain ⟨p, hp, htep⟩ := List.mem_flatMap.1 hte
          obtain ⟨-, -, pr, -, -, hor, -, hnr2, hlk2⟩ := pageGenerated_mem htep
          have hprR : pr.2.ref = R := by rw [← hor, heR]
          rw [hprR] at hlk2
          have hmm := lookup_mem hlk2
          obtain ⟨q, hq, hqs, hqne, hqk⟩ := pageLookup_mem_inv hmm
          have hq2 := List.mem_filter.1 hq
          exact hnm q hq2.1 (of_decide_eq_true hq2.2) _ hqs hqne hqk.symm
        · rw [if_neg hts] at hfe
          exact absurd hfe (by simp)

/-- Witness instantiating `computeInboundReferences_spec`: in the two-page
sample project, resolution gives "B-201" exactly one inbound entry derived
from "A-101"'s single outbound occurrence. -/
theorem computeInboundReferences_spec_witness :
    (wPageA ∈ wPages
      ∧ occCount wOutA "ptr1" "B-201" "sheet" = 1
      ∧ ((p1Pages wPages).map Page.id).Nodup
      ∧ normalize_sheet_ref "B-201" ≠ "")
    ∧ ∃ B', B' ∈ computeInboundReferences wPages ∧ B'.id = wPageB.id ∧
        B'.sheet_number = some "B-201" ∧
        B'.inbound_references.countP
          (fun e => matchesOcc e wPageA.id "ptr1" "B-201" "sheet") = 1 ∧
        ∀ e ∈ B'.inbound_references,
          matchesOcc e wPageA.id "ptr1" "B-201" "sheet" = true →
          e.source_sheet = wPageA.sheet_number := by
  refine ⟨⟨by decide, by decide, by decide, by decide⟩, ?_⟩
  refine (computeInboundReferences_spec wPages wPageA wOutA "ptr1" "B-201" "sheet"
    (by decide) (by decide) rfl (by decide) (by decide)).1 wPageB "B-201"
    (by decide) (by decide) rfl (by decide) rfl (by decide) ?_
  intro p hp hst s hps hsne hk
  fin_cases hp
  · have hs : s = "A-101" := by
      have h2 : some "A-101" = some s := hps
      injection h2 with h2
      exact h2.symm
    subst hs
    exact absurd hk (by decide)
  · have hs : s = "B-201" := by
      have h2 : some "B-201" = some s := hps
      injection h2 with h2
      exact h2.symm
    subst hs
    rfl

/-- Claim C2: once all Pass 2 work completed (every page `pass2_complete`,
inbound entries still context-free as the resolver left them), after the
propagation step every inbound entry of every page has a defined context:
the looked-up string when its `(source_sheet, original_ref)` key is in the
lookup built from the `pass2_output`s, and the empty string otherwise.  The
returned list is the committed database state. -/
theorem propagateInboundContext_spec
    (pages : List Page)
    (hall : ∀ p ∈ pages, p.processing_status = PStatus.pass2_complete)
    (hctx : ∀ p ∈ pages, ∀ e ∈ p.inbound_references, e.context = none) :
    ∀ p' ∈ propagateInboundContext pages, ∀ e ∈ p'.inbound_references,
      e.context = some ((match e.source_sheet with
        | some s => List.lookup (s, e.original_ref) (contextLookup (p2Pages pages))
        | none => none).getD "") := by
  intro p' hp' e he
  by_cases hnil : p2Pages pages = []
  · rw [propagateInboundContext, if_pos hnil] at hp'
    have hmem : p' ∈ p2Pages pages := List.mem_filter.2 ⟨hp', by simp [hall p' hp']⟩
    rw [hnil] at hmem
    exact absurd hmem (List.not_mem_nil p')
  · rw [propagateInboundContext, if_neg hnil] at hp'
    obtain ⟨p, hp, hfp⟩ := List.mem_map.1 hp'
    rw [← hfp] at he
    simp only [hall p hp, if_true] at he
    obtain ⟨e0, he0, hfe⟩ := List.mem_map.1 he
    subst hfe
    have h0 : e0.context = none := hctx p hp e0 he0
    unfold propagateEntry
    cases hm : (match e0.source_sheet with
                | some s => List.lookup (s, e0.original_ref) (contextLookup (p2Pages pages))
                | none => none) with
    | some c =>
      simp [hm]
    | none =>
      simp [hm, h0]

/-- Witness instantiating `propagateInboundContext_spec` on the concrete
two-page project: its hypotheses hold and the conclusion follows by applying
the theorem. -/
theorem propagateInboundContext_spec_witness :
    ((∀ p ∈ w2Pages, p.processing_status = PStatus.pass2_complete)
      ∧ (∀ p ∈ w2Pages, ∀ e ∈ p.inbound_references, e.context = none))
    ∧ ∀ p' ∈ propagateInboundContext w2Pages, ∀ e ∈ p'.inbound_references,
        e.context = some ((match e.source_sheet with
          | some s => List.lookup (s, e.original_ref) (contextLookup (p2Pages w2Pages))
          | none => none).getD "") :=
  ⟨⟨by decide, by decide⟩,
    propagateInboundContext_spec w2Pages (by decide) (by decide)⟩

/-- Claim C1 counterexample: on a response whose JSON parse fails at its very
end (a truncation-positioned failure), `_call_gemini_json` surfaces the parse
error with the next oracle outcome left unconsumed — no retry of any kind is
issued — even though the retry response would have parsed. -/
theorem callGeminiJson_truncated_counterexample :
    callGeminiJson cxParse [AttemptResult.response cxBad, AttemptResult.response cxGood]
      = (Except.error (decodeErrorMsg (cxBad.length, "Expecting value")),
         [AttemptResult.response cxGood])
    ∧ truncationPositioned cxBad.length cxBad.length = true
    ∧ cxParse (cleanJsonResponse cxGood) = Except.ok () := by
  refine ⟨?_, by decide, ?_⟩
  · rfl
  · rfl

/-- Claim C1 (amended): `_call_gemini_json` performs no parse-failure retry
at all: whenever the backoff loop yields a response whose cleaned text fails
to parse, the parse error is surfaced immediately with the remaining oracle
outcomes unconsumed, and the page-level caller records the failure as status
`error` carrying the parse diagnostic.  (The one extended-budget,
terser-prompt retry described by the spec exists only in
`gemini_service.analyze_context_pointer`, outside this pipeline.) -/
theorem callGeminiJson_parse_error_no_retry {J : Type}
    (parse : String → Except (Nat × String) J)
    (attempts : List AttemptResult) (r : String) (rest : List AttemptResult)
    (pe : Nat × String)
    (hr : retryWithBackoff MAX_RETRIES attempts = (Except.ok r, rest))
    (hp : parse (cleanJsonResponse r) = Except.error pe) :
    callGeminiJson parse attempts = (Except.error (decodeErrorMsg pe), rest)
    ∧ ∀ page fb, ∃ q,
        (processPass1Trace page (Except.error (decodeErrorMsg pe)) fb).getLast? = some q
        ∧ q.processing_status = PStatus.error
        ∧ q.error_message = some (decodeErrorMsg pe) := by
  constructor
  · unfold callGeminiJson
    rw [hr]
    simp [hp]
  · intro page fb
    exact ⟨_, rfl, rfl, rfl⟩

/-- Witness instantiating `callGeminiJson_parse_error_no_retry` at the
concrete truncated response. -/
theorem callGeminiJson_parse_error_no_retry_witness :
    (retryWithBackoff MAX_RETRIES [AttemptResult.response cxBad]
        = (Except.ok cxBad, [])
      ∧ cxParse (cleanJsonResponse cxBad)
        = Except.error (cxBad.length, "Expecting value"))
    ∧ callGeminiJson cxParse [AttemptResult.response cxBad]
        = (Except.error (decodeErrorMsg (cxBad.length, "Expecting value")), []) :=
  ⟨⟨rfl, rfl⟩,
    (callGeminiJson_parse_error_no_retry cxParse [AttemptResult.response cxBad]
      cxBad [] (cxBad.length, "Expecting value") rfl rfl).1⟩

/-- Claim C9: in both passes, the status flip and the output write happen in
one committed state: every state committed by `process_pass1` or
`process_pass2` satisfies the status/output coupling, and the final commit of
a successful pass carries this run's oracle output together with the
completed status — including the error paths, which flip the status to
`error` without touching the outputs. -/
theorem processPass_status_output_atomic
    (page : Page) (o1 : Except String Pass1Out) (fb : Option String)
    (o2 : Except String Pass2Out) :
    (∀ q ∈ processPass1Trace page o1 fb, statusOutputInv q)
    ∧ (∀ q ∈ processPass2Trace page o2, statusOutputInv q)
    ∧ (∀ r, o1 = Except.ok r → ∃ q,
        (processPass1Trace page o1 fb).getLast? = some q
        ∧ q.processing_status = PStatus.pass1_complete ∧ q.pass1_output = some r)
    ∧ (∀ r, o2 = Except.ok r → ∃ q,
        (processPass2Trace page o2).getLast? = some q
        ∧ q.processing_status = PStatus.pass2_complete ∧ q.pass2_output = some r) := by
  refine ⟨?_, ?_, ?_, ?_⟩
  · intro q hq
    cases o1 with
    | error e =>
      simp [processPass1Trace] at hq
      rcases hq with rfl | rfl | rfl <;> exact ⟨by intro h; simp at h, by intro h; simp at h⟩
    | ok r =>
      simp [processPass1Trace] at hq
      rcases hq with rfl | rfl
      · exact ⟨by intro h; simp at h, by intro h; simp at h⟩
      · exact ⟨by intro h; rfl, by intro h; simp at h⟩
  · intro q hq
    cases o2 with
    | error e =>
      simp [processPass2Trace] at hq
      rcases hq with rfl | rfl | rfl <;> exact ⟨by intro h; simp at h, by intro h; simp at h⟩
    | ok r =>
      simp [processPass2Trace] at hq
      rcases hq with rfl | rfl
      · exact ⟨by intro h; simp at h, by intro h; simp at h⟩
      · exact ⟨by intro h; simp at h, by intro h; rfl⟩
  · intro r hr
    subst hr
    exact ⟨_, rfl, rfl, rfl⟩
  · intro r hr
    subst hr
    exact ⟨_, rfl, rfl, rfl⟩

/-- Witness instantiating `processPass_status_output_atomic` on a concrete
successful Pass 2 run: the final commit carries status and output together. -/
theorem processPass_status_output_atomic_witness :
    ∃ q, (processPass2Trace w2PageA (Except.ok w2OutA)).getLast? = some q
      ∧ q.processing_status = PStatus.pass2_complete
      ∧ q.pass2_output = some w2OutA :=
  (processPass_status_output_atomic w2PageA (Except.error "oracle down") none
    (Except.ok w2OutA)).2.2.2 w2OutA rfl

/-- Claim C8 counterexample: a page in `pass2_processing` has a status other
than `pass2_complete`, yet the sweep selects nothing — it is neither reset
nor reported — so the sweep does not select exactly the non-`pass2_complete`
pages. -/
theorem sweepAndRetryOrphans_counterexample :
    c8Page.processing_status ≠ PStatus.pass2_complete
    ∧ c8Page.retry_count < 3
    ∧ sweepAndRetryOrphans 3 [c8Page]
        = { pages := [c8Page], retried := 0, failed := [] } := by
  refine ⟨by decide, by decide, ?_⟩
  rfl

/-- Claim C8 (amended): the sweep selects exactly the pages whose status is
`unprocessed`, `error` or `pass1_processing` (after the Pass 1 and Pass 2
phases have run, these are the non-`pass2_complete` pages; a page orphaned in
`pass1_complete` or `pass2_processing` is not selected).  Every selected page
under the retry budget is reset to `unprocessed` with its `retry_count`
incremented; every selected page at or above the budget is reported in the
failed list and remains visible unchanged, and the failed report contains
nothing else; `retried` counts the resets. -/
theorem sweepAndRetryOrphans_spec (maxRetries : Nat) (pages : List Page) :
    (∀ p ∈ pages, (sweepSelect p = true ↔
        (p.processing_status = PStatus.unprocessed
          ∨ p.processing_status = PStatus.error
          ∨ p.processing_status = PStatus.pass1_processing)))
    ∧ (∀ p ∈ pages, sweepSelect p = true → p.retry_count < maxRetries →
        resetPage p ∈ (sweepAndRetryOrphans maxRetries pages).pages)
    ∧ (∀ p ∈ pages, sweepSelect p = true → maxRetries ≤ p.retry_count →
        p ∈ (sweepAndRetryOrphans maxRetries pages).pages
        ∧ p ∈ (sweepAndRetryOrphans maxRetries pages).failed)
    ∧ (∀ p ∈ (sweepAndRetryOrphans maxRetries pages).failed,
        sweepSelect p = true ∧ maxRetries ≤ p.retry_count ∧ p ∈ pages)
    ∧ (sweepAndRetryOrphans maxRetries pages).retried
        = (pages.filter (fun p =>
            decide (p.retry_count < maxRetries) && sweepSelect p)).length := by
  refine ⟨?_, ?_, ?_, ?_, ?_⟩
  · intro p _
    simp [sweepSelect, or_assoc]
  · intro p hp hsel hrc
    have hf : (if sweepSelect p = true ∧ p.retry_count < maxRetries then resetPage p else p)
        = resetPage p := if_pos ⟨hsel, hrc⟩
    rw [← hf]
    exact List.mem_map_of_mem _ hp
  · intro p hp hsel hrc
    constructor
    · have hf : (if sweepSelect p = true ∧ p.retry_count < maxRetries then resetPage p else p)
          = p := if_neg (by intro h; exact absurd h.2 (Nat.not_lt.2 hrc))
      rw [← hf]
      exact List.mem_map_of_mem _ hp
    · exact List.mem_filter.2 ⟨List.mem_filter.2 ⟨hp, hsel⟩, by simp [hrc]⟩
  · intro p hp
    have h1 := List.mem_filter.1 hp
    have h2 := List.mem_filter.1 h1.1
    exact ⟨h2.2, by simpa using h1.2, h2.1⟩
  · show ((pages.filter sweepSelect).filter
        (fun p => decide (p.retry_count < maxRetries))).length = _
    rw [List.filter_filter]

/-- Witness instantiating `sweepAndRetryOrphans_spec`: the at-budget error
page is reported failed and stays visible. -/
theorem sweepAndRetryOrphans_spec_witness :
    (c8ErrPage ∈ [c8ErrPage] ∧ sweepSelect c8ErrPage = true
      ∧ 3 ≤ c8ErrPage.retry_count)
    ∧ (c8ErrPage ∈ (sweepAndRetryOrphans 3 [c8ErrPage]).pages
      ∧ c8ErrPage ∈ (sweepAndRetryOrphans 3 [c8ErrPage]).failed) :=
  ⟨⟨by decide, by decide, by decide⟩,
    (sweepAndRetryOrphans_spec 3 [c8ErrPage]).2.2.1 c8ErrPage (by decide)
      (by decide) (by decide)⟩

theorem processPass1Trace_getLastD (p : Page) (o : Except String Pass1Out)
    (fb : Option String) :
    ((processPass1Trace p o fb).getLastD p).retry_count = p.retry_count
    ∧ (((processPass1Trace p o fb).getLastD p).processing_status = PStatus.pass1_complete
      ∨ ((processPass1Trace p o fb).getLastD p).processing_status = PStatus.error) := by
  cases o with
  | error e => exact ⟨rfl, Or.inr rfl⟩
  | ok r => exact ⟨rfl, Or.inl rfl⟩

theorem processPass2Trace_getLastD (p : Page) (o : Except String Pass2Out) :
    ((processPass2Trace p o).getLastD p).retry_count = p.retry_count
    ∧ (((processPass2Trace p o).getLastD p).processing_status = PStatus.pass2_complete
      ∨ ((processPass2Trace p o).getLastD p).processing_status = PStatus.error) := by
  cases o with
  | error e => exact ⟨rfl, Or.inr rfl⟩
  | ok r => exact ⟨rfl, Or.inl rfl⟩

theorem potential_map (f : Page → Page)
    (h : ∀ p, (f p).retry_count = p.retry_count) (pages : List Page) :
    potential (pages.map f) = potential pages := by
  unfold potential
  rw [List.map_map]
  have hc : ((fun p => 3 - p.retry_count) ∘ f) = fun p : Page => 3 - p.retry_count :=
    funext fun p => by simp [Function.comp, h p]
  rw [hc]

theorem runPass1Model_potential (o : String → Except String Pass1Out)
    (fb : String → Option String) (pages : List Page) :
    potential (runPass1Model o fb pages) = potential pages := by
  apply potential_map
  intro p
  by_cases h : sweepSelect p = true
  · rw [if_pos h]
    exact (processPass1Trace_getLastD p (o p.id) (fb p.id)).1
  · rw [if_neg h]

theorem runPass2Model_potential (o : String → Except String Pass2Out) (pages : List Page) :
    potential (runPass2Model o pages) = potential pages := by
  apply potential_map
  intro p
  by_cases h : pass2Select p = true
  · rw [if_pos h]
    exact (processPass2Trace_getLastD p (o p.id)).1
  · rw [if_neg h]

theorem resolveUpdate_skeleton (gen : List (String × InboundEntry)) (p : Page) :
    (resolveUpdate gen p).retry_count = p.retry_count
    ∧ (resolveUpdate gen p).processing_status = p.processing_status := by
  unfold resolveUpdate
  split <;> exact ⟨rfl, rfl⟩

theorem computeInboundReferences_potential (pages : List Page) :
    potential (computeInboundReferences pages) = potential pages := by
  unfold computeInboundReferences
  split
  · rfl
  · exact potential_map _ (fun p => (resolveUpdate_skeleton _ p).1) pages

theorem propagateInboundContext_potential (pages : List Page) :
    potential (propagateInboundContext pages) = potential pages := by
  unfold propagateInboundContext
  split
  · rfl
  · apply potential_map
    intro p
    split <;> rfl

theorem computeInboundReferences_status (pages : List Page) :
    ∀ p' ∈ computeInboundReferences pages, ∃ p ∈ pages,
      p'.processing_status = p.processing_status := by
  unfold computeInboundReferences
  split
  · exact fun p' hp' => ⟨p', hp', rfl⟩
  · intro p' hp'
    obtain ⟨p, hp, rfl⟩ := List.mem_map.1 hp'
    exact ⟨p, hp, (resolveUpdate_skeleton _ p).2⟩

theorem propagateInboundContext_status (pages : List Page) :
    ∀ p' ∈ propagateInboundContext pages, ∃ p ∈ pages,
      p'.processing_status = p.processing_status := by
  unfold propagateInboundContext
  split
  · exact fun p' hp' => ⟨p', hp', rfl⟩
  · intro p' hp'
    obtain ⟨p, hp, rfl⟩ := List.mem_map.1 hp'
    refine ⟨p, hp, ?_⟩
    split <;> rfl

theorem runPass1Model_statuses (o : String → Except String Pass1Out)
    (fb : String → Option String) (pages : List Page) :
    ∀ p ∈ runPass1Model o fb pages, notPreP1 p := by
  intro p hp
  obtain ⟨q, hq, rfl⟩ := List.mem_map.1 hp
  by_cases h : sweepSelect q = true
  · rw [if_pos h]
    rcases (processPass1Trace_getLastD q (o q.id) (fb q.id)).2 with h1 | h1
    · exact ⟨fun hc => by rw [h1] at hc; exact PStatus.noConfusion hc,
             fun hc => by rw [h1] at hc; exact PStatus.noConfusion hc⟩
    · exact ⟨fun hc => by rw [h1] at hc; exact PStatus.noConfusion hc,
             fun hc => by rw [h1] at hc; exact PStatus.noConfusion hc⟩
  · rw [if_neg h]
    simp [sweepSelect] at h
    exact ⟨h.1.1, h.2⟩

theorem runPass2Model_statuses (o : String → Except String Pass2Out)
    (pages : List Page) (h : ∀ p ∈ pages, notPreP1 p) :
    ∀ p ∈ runPass2Model o pages,
      p.processing_status = PStatus.pass2_complete
      ∨ p.processing_status = PStatus.error := by
  intro p hp
  obtain ⟨q, hq, rfl⟩ := List.mem_map.1 hp
  by_cases h2 : pass2Select q = true
  · rw [if_pos h2]
    exact (processPass2Trace_getLastD q (o q.id)).2
  · rw [if_neg h2]
    have hn := h q hq
    simp [pass2Select] at h2
    cases hst : q.processing_status with
    | unprocessed => exact absurd hst hn.1
    | pass1_processing => exact absurd hst hn.2
    | pass1_complete => exact absurd hst h2.1
    | pass2_processing => exact absurd hst h2.2
    | pass2_complete => exact Or.inl rfl
    | error => exact Or.inr rfl

theorem runPhases_potential (env : PassEnv) (i : Nat) (pages : List Page) :
    potential (runPhases env i pages) = potential pages := by
  unfold runPhases
  rw [runPass2Model_potential, runPass1Model_potential]

theorem runPhases_statuses (env : PassEnv) (i : Nat) (pages : List Page) :
    ∀ p ∈ runPhases env i pages,
      p.processing_status = PStatus.pass2_complete
      ∨ p.processing_status = PStatus.error :=
  runPass2Model_statuses _ _ (runPass1Model_statuses _ _ pages)

theorem sweep_retried_countP (pages : List Page) :
    (sweepAndRetryOrphans 3 pages).retried
      = pages.countP (fun p => sweepSelect p && decide (p.retry_count < 3)) := by
  show ((pages.filter sweepSelect).filter
      (fun p => decide (p.retry_count < 3))).length = _
  rw [← List.countP_eq_length_filter, List.countP_filter]
  exact List.countP_congr (fun a _ => by rw [Bool.and_comm])

theorem sweep_map_potential : ∀ pages : List Page,
    potential (pages.map (fun p =>
      if sweepSelect p = true ∧ p.retry_count < 3 then resetPage p else p))
    + pages.countP (fun p => sweepSelect p && decide (p.retry_count < 3))
    = potential pages := by
  intro pages
  induction pages with
  | nil => rfl
  | cons p rest ih =>
    simp only [List.map_cons, potential, List.sum_cons, List.countP_cons] at ih ⊢
    by_cases hsel : sweepSelect p = true
    · by_cases hrc : p.retry_count < 3
      · rw [if_pos ⟨hsel, hrc⟩]
        have he : (sweepSelect p && decide (p.retry_count < 3)) = true := by
          simp [hsel, hrc]
        rw [he, if_pos rfl]
        rw [show (resetPage p).retry_count = p.retry_count + 1 from rfl]
        omega
      · have he : (sweepSelect p && decide (p.retry_count < 3)) = false := by
          simp [hrc]
        rw [if_neg (fun hh => hrc hh.2), he]
        simp only [Bool.false_eq_true, if_false]
        omega
    · have he : (sweepSelect p && decide (p.retry_count < 3)) = false := by
        simp [hsel]
      rw [if_neg (fun hh => hsel hh.1), he]
      simp only [Bool.false_eq_true, if_false]
      omega

theorem sweep_potential (pages : List Page) :
    potential ((sweepAndRetryOrphans 3 pages).pages)
      + (sweepAndRetryOrphans 3 pages).retried = potential pages := by
  rw [sweep_retried_countP]
  exact sweep_map_potential pages

theorem sweep_retried_zero {pages : List Page}
    (h : (sweepAndRetryOrphans 3 pages).retried = 0) :
    ∀ p ∈ pages, ¬(sweepSelect p = true ∧ p.retry_count < 3) := by
  rw [sweep_retried_countP, List.countP_eq_zero] at h
  intro p hp hc
  exact h p hp (by simp [hc.1, hc.2])

theorem sweepLoop_spec (env : PassEnv) : ∀ fuel i pages,
    potential pages < fuel →
    (∀ p ∈ pages, p.processing_status = PStatus.pass2_complete
      ∨ p.processing_status = PStatus.error) →
    ∃ final failed, sweepLoop env fuel i pages = some (final, failed)
      ∧ ∀ p ∈ final, p.processing_status = PStatus.pass2_complete
          ∨ (p.processing_status = PStatus.error ∧ 3 ≤ p.retry_count ∧ p ∈ failed) := by
  intro fuel
  induction fuel with
  | zero =>
    intro i pages hpot _
    exact absurd hpot (Nat.not_lt_zero _)
  | succ fuel ih =>
    intro i pages hpot hst
    by_cases hz : (sweepAndRetryOrphans 3 pages).retried = 0
    · refine ⟨(sweepAndRetryOrphans 3 pages).pages,
        (sweepAndRetryOrphans 3 pages).failed, ?_, ?_⟩
      · simp only [sweepLoop]
        rw [if_pos hz]
      · intro p hp
        have hnz := sweep_retried_zero hz
        obtain ⟨q, hq, rfl⟩ := List.mem_map.1 hp
        rw [if_neg (hnz q hq)]
        rcases hst q hq with h1 | h1
        · exact Or.inl h1
        · right
          have hsel : sweepSelect q = true := by simp [sweepSelect, h1]
          have hrc : 3 ≤ q.retry_count := by
            by_contra hlt
            exact hnz q hq ⟨hsel, by omega⟩
          refine ⟨h1, hrc, ?_⟩
          exact List.mem_filter.2 ⟨List.mem_filter.2 ⟨hq, hsel⟩, by simp [hrc]⟩
    · have hdec : potential (runPhases env (i + 1) (sweepAndRetryOrphans 3 pages).pages)
          < fuel := by
        have hsp := sweep_potential pages
        rw [runPhases_potential]
        omega
      obtain ⟨final, failed, heq, hprop⟩ :=
        ih (i + 1) (runPhases env (i + 1) (sweepAndRetryOrphans 3 pages).pages)
          hdec (runPhases_statuses env (i + 1) _)
      refine ⟨final, failed, ?_, hprop⟩
      simp only [sweepLoop]
      rw [if_neg hz]
      exact heq

theorem potential_le (pages : List Page) : potential pages ≤ 3 * pages.length := by
  induction pages with
  | nil => simp [potential]
  | cons p rest ih =>
    simp only [potential, List.map_cons, List.sum_cons, List.length_cons] at ih ⊢
    omega

/-- Claim C7: for every oracle environment and every starting page list —
including pages stuck in `pass1_processing` or any other state short of
`pass2_complete` — the sweep-and-retry loop of `start_processing` terminates
within `3 * n + 1` sweeps (each sweep that resets a page strictly increments
its `retry_count`, which no phase ever decreases, and a page at the budget is
never reset again): the run returns a final state in which every page is
either `pass2_complete` or a permanently failed page, with status `error`,
`retry_count` at the budget, reported in the final sweep's failed list. -/
theorem startProcessing_orphan_convergence (env : PassEnv) (pages : List Page) :
    ∃ final failed,
      startProcessingModel env (3 * pages.length + 1) pages = some (final, failed)
      ∧ ∀ p ∈ final, p.processing_status = PStatus.pass2_complete
          ∨ (p.processing_status = PStatus.error ∧ 3 ≤ p.retry_count ∧ p ∈ failed) := by
  apply sweepLoop_spec
  · rw [propagateInboundContext_potential, runPass2Model_potential,
      computeInboundReferences_potential, runPass1Model_potential]
    have hle := potential_le pages
    omega
  · intro p hp
    obtain ⟨q, hq, hqs⟩ := propagateInboundContext_status _ p hp
    have hpre : ∀ x ∈ computeInboundReferences
        (runPass1Model (env.oracle1 0) env.fallback pages), notPreP1 x := by
      intro x hx
      obtain ⟨y, hy, hys⟩ := computeInboundReferences_status _ x hx
      have hny := runPass1Model_statuses _ _ _ y hy
      exact ⟨fun hc => hny.1 (hys ▸ hc), fun hc => hny.2 (hys ▸ hc)⟩
    have hq2 := runPass2Model_statuses _ _ hpre q hq
    rw [hqs]
    exact hq2

/-- Claim C3 counterexample: trigger "pages" (job 0 starts), trigger
"disciplines" (job 1 starts and overwrites the registry entry), then trigger
"pages" again while job 0 is still running — the request starts a fresh
job 2 instead of returning job 0 with `already_running`, so the
per-(project, kind) deduplication fails under cross-kind interleaving. -/
theorem triggerProcessing_counterexample :
    let s0 : JobsState := { registry := none, running := [], nextId := 0 }
    let r1 := triggerProcessing JKind.pages s0
    let r2 := triggerProcessing JKind.disciplines r1.1
    let r3 := triggerProcessing JKind.pages r2.1
    r1.2 = (0, TriggerStatus.started)
    ∧ (0, JKind.pages) ∈ r2.1.running
    ∧ r3.2 = (2, TriggerStatus.started)
    ∧ (0, JKind.pages) ∈ r3.1.running ∧ (2, JKind.pages) ∈ r3.1.running := by
  decide

/-- Claim C3 (amended): the deduplication is per project against the single
tracked job, not per (project, kind): a trigger whose kind matches the
registered job returns that job's id with `already_running` and changes
nothing, while a trigger of the other kind overwrites the registration and
starts a new run — which is why the invariant fails under cross-kind
interleaving (see the counterexample). -/
theorem triggerProcessing_dedup (s : JobsState) (j : Nat) (k : JKind)
    (h : s.registry = some (j, k)) :
    triggerProcessing k s = (s, (j, TriggerStatus.already_running))
    ∧ ∀ k', k' ≠ k →
        (triggerProcessing k' s).2 = (s.nextId, TriggerStatus.started)
        ∧ (triggerProcessing k' s).1.registry = some (s.nextId, k')
        ∧ (triggerProcessing k' s).1.running = s.running ++ [(s.nextId, k')] := by
  constructor
  · unfold triggerProcessing
    rw [h]
    simp
  · intro k' hk'
    have hne : ¬ (k = k') := fun hh => hk' hh.symm
    unfold triggerProcessing
    rw [h]
    simp [hne]

/-- Witness instantiating `triggerProcessing_dedup` on a concrete state with
a running "pages" job. -/
theorem triggerProcessing_dedup_witness :
    ({ registry := some (5, JKind.pages), running := [(5, JKind.pages)],
       nextId := 6 : JobsState }.registry = some (5, JKind.pages))
    ∧ triggerProcessing JKind.pages
        { registry := some (5, JKind.pages), running := [(5, JKind.pages)], nextId := 6 }
      = ({ registry := some (5, JKind.pages), running := [(5, JKind.pages)], nextId := 6 },
         (5, TriggerStatus.already_running)) :=
  ⟨rfl,
    (triggerProcessing_dedup
      { registry := some (5, JKind.pages), running := [(5, JKind.pages)], nextId := 6 }
      5 JKind.pages rfl).1⟩

theorem find?_setReadyFirst (code : String) :
    ∀ (l : List Disc) (d : Disc), l.find? (fun d2 => d2.code == code) = some d →
      (setReadyFirst code l).find? (fun d2 => d2.code == code)
        = some { d with processing_status := DStatus.ready } := by
  intro l
  induction l with
  | nil => intro d h; simp at h
  | cons a rest ih =>
    intro d h
    by_cases hc : (a.code == code) = true
    · simp only [List.find?, hc] at h
      injection h with h
      subst h
      unfold setReadyFirst
      rw [if_pos hc]
      simp [List.find?, hc]
    · have hcf : (a.code == code) = false := by simpa using hc
      simp only [List.find?, hcf] at h
      unfold setReadyFirst
      rw [if_neg hc]
      simp only [List.find?, hcf]
      exact ih d h

theorem countP_and_eq_iff (p q : Page → Bool) : ∀ l : List Page,
    (l.countP p = l.countP (fun a => p a && q a)) ↔
      (∀ a ∈ l, p a = true → q a = true) := by
  intro l
  induction l with
  | nil => simp
  | cons a rest ih =>
    have hle : rest.countP (fun x => p x && q x) ≤ rest.countP p :=
      List.countP_mono_left (fun x _ hx => by
        have hc := hx
        simp at hc
        simp [hc.1])
    simp only [List.countP_cons]
    by_cases hp : p a = true
    · by_cases hq : q a = true
      · simp [hp, hq, List.forall_mem_cons, ih]
      · simp [hp, hq, List.forall_mem_cons]
        omega
    · simp [hp, List.forall_mem_cons, ih]

/-- Claim C4: for a discipline row in `waiting` with at least one member
page, the readiness check fires exactly when every page carrying the
discipline code is `pass2_complete`; firing emits the `discipline_ready`
event once, queues the discipline for aggregation once (deduplicated), and
re-running the check on the resulting state neither fires nor changes
anything — the row has left `waiting`. -/
theorem checkDisciplineReady_spec (st : ProjState) (code : String) (d : Disc)
    (hfind : st.disciplines.find? (fun d2 => d2.code == code) = some d)
    (hw : d.processing_status = DStatus.waiting)
    (hpos : 0 < st.pages.countP (fun p => p.discipline_code == some code)) :
    ((checkDisciplineReady code st).2 = true ↔
      st.pages.countP (fun p => p.discipline_code == some code)
        = st.pages.countP (fun p => p.discipline_code == some code
            && decide (p.processing_status = PStatus.pass2_complete)))
    ∧ (st.pages.countP (fun p => p.discipline_code == some code)
        = st.pages.countP (fun p => p.discipline_code == some code
            && decide (p.processing_status = PStatus.pass2_complete))
      ↔ ∀ p ∈ st.pages, p.discipline_code = some code →
          p.processing_status = PStatus.pass2_complete)
    ∧ ((checkDisciplineReady code st).2 = true →
        (checkDisciplineReady code st).1.events = st.events ++ [code]
        ∧ (checkDisciplineReady code st).1.queue
            = (if code ∈ st.queue then st.queue else st.queue ++ [code])
        ∧ checkDisciplineReady code (checkDisciplineReady code st).1
            = ((checkDisciplineReady code st).1, false)) := by
  by_cases heq : st.pages.countP (fun p => p.discipline_code == some code)
      = st.pages.countP (fun p => p.discipline_code == some code
          && decide (p.processing_status = PStatus.pass2_complete))
  · have hfire : checkDisciplineReady code st =
        ({ st with
            disciplines := setReadyFirst code st.disciplines,
            events := st.events ++ [code],
            queue := if code ∈ st.queue then st.queue else st.queue ++ [code] },
         true) := by
      unfold checkDisciplineReady
      rw [if_pos ⟨hpos, heq⟩, hfind]
      simp [hw]
    refine ⟨⟨fun _ => heq, fun _ => by rw [hfire]⟩, ?_, fun _ => ?_⟩
    · refine Iff.trans (countP_and_eq_iff _ _ st.pages) ?_
      constructor
      · intro hh q hq hqc
        have hb := hh q hq (by simp [hqc])
        simpa using hb
      · intro hh q hq hqb
        have hqc : q.discipline_code = some code := by simpa using hqb
        simp [hh q hq hqc]
    · refine ⟨by rw [hfire], by rw [hfire], ?_⟩
      rw [hfire]
      have hfind2 := find?_setReadyFirst code st.disciplines d hfind
      simp [checkDisciplineReady, hfind2, hpos, heq]
  · have hnot : checkDisciplineReady code st = (st, false) := by
      unfold checkDisciplineReady
      rw [if_neg (fun hc => heq hc.2)]
    rw [hnot]
    refine ⟨⟨fun hc => absurd hc (by simp), fun hc => absurd hc heq⟩, ?_,
      fun hc => absurd hc (by simp)⟩
    refine Iff.trans (countP_and_eq_iff _ _ st.pages) ?_
    constructor
    · intro hh q hq hqc
      have hb := hh q hq (by simp [hqc])
      simpa using hb
    · intro hh q hq hqb
      have hqc : q.discipline_code = some code := by simpa using hqb
      simp [hh q hq hqc]

/-- Witness instantiating `checkDisciplineReady_spec`: with its single member
page complete, discipline "A" fires. -/
theorem checkDisciplineReady_spec_witness :
    (c4St.disciplines.find? (fun d2 => d2.code == "A") = some c4Disc
      ∧ c4Disc.processing_status = DStatus.waiting
      ∧ 0 < c4St.pages.countP (fun p => p.discipline_code == some "A"))
    ∧ ((checkDisciplineReady "A" c4St).2 = true ↔
        c4St.pages.countP (fun p => p.discipline_code == some "A")
          = c4St.pages.countP (fun p => p.discipline_code == some "A"
              && decide (p.processing_status = PStatus.pass2_complete))) :=
  ⟨⟨by decide, rfl, by decide⟩,
    (checkDisciplineReady_spec c4St "A" c4Disc (by decide) rfl (by decide)).1⟩

/-- Claim C10: a discipline with zero assigned pages never becomes ready:
the check requires a strictly positive member count, so a placeholder
discipline row with no page carrying its code is left exactly as it was —
no status change, no `discipline_ready` event, no aggregation queued. -/
theorem checkDisciplineReady_empty (st : ProjState) (code : String)
    (h : st.pages.countP (fun p => p.discipline_code == some code) = 0) :
    checkDisciplineReady code st = (st, false)
    ∧ (checkDisciplineReady code st).1.disciplines = st.disciplines
    ∧ (checkDisciplineReady code st).1.events = st.events
    ∧ (checkDisciplineReady code st).1.queue = st.queue := by
  have hmain : checkDisciplineReady code st = (st, false) := by
    unfold checkDisciplineReady
    rw [if_neg (fun hc => by rw [h] at hc; exact absurd hc.1 (lt_irrefl 0))]
  exact ⟨hmain, by rw [hmain], by rw [hmain], by rw [hmain]⟩

/-- Witness instantiating `checkDisciplineReady_empty` on a default
placeholder discipline ("FP") with no member pages. -/
theorem checkDisciplineReady_empty_witness :
    (({ pages := [c4Page],
        disciplines := [{ code := "FP", name := "Fire Protection",
                          processing_status := DStatus.waiting }],
        events := [], queue := [] : ProjState }).pages.countP
          (fun p => p.discipline_code == some "FP") = 0)
    ∧ checkDisciplineReady "FP"
        { pages := [c4Page],
          disciplines := [{ code := "FP", name := "Fire Protection",
                            processing_status := DStatus.waiting }],
          events := [], queue := [] }
      = ({ pages := [c4Page],
           disciplines := [{ code := "FP", name := "Fire Protection",
                             processing_status := DStatus.waiting }],
           events := [], queue := [] }, false) :=
  ⟨by decide,
    (checkDisciplineReady_empty
      { pages := [c4Page],
        disciplines := [{ code := "FP", name := "Fire Protection",
                          processing_status := DStatus.waiting }],
        events := [], queue := [] } "FP" (by decide)).1⟩

end Maestro
